import Mathlib

set_option maxHeartbeats 1600000

/-
Verification development for the oracle price-feed aggregation service
(backend/src/oracle_client.rs and backend/src/price_aggregator.rs).

Modelling conventions, used consistently below:

* `f64` values are modelled as real numbers (`ℝ`): every arithmetic operation of
  the source (sums, products, quotients, `abs`, `sqrt`, `min`) is the exact real
  operation.  At the two places where the source can divide zero by zero
  (`calculate_outlier_score`) the IEEE behaviour of the surrounding code
  (`NaN`/`+inf` collapsing to `1.0` under Rust's `f64::min`) is modelled by an
  explicit branch, documented at the definition.
* Wall-clock time is an integer count of milliseconds (`nowMs : ℤ`); the
  source's `SystemTime::…::as_secs()` is `nowMs / 1000`, and `Instant::elapsed`
  comparisons against the 500 ms cache TTL happen in milliseconds.
* The adapter fan-out is modelled by its outcome: `fetched : List PriceData` is
  the list of quotes the non-failing oracle clients returned for this tick.
* The history store is modelled by its two interactions: the `INSERT` of
  `store_price_data` is recorded in an `inserted` log (the insert itself always
  succeeds), and the `AVG(price)` query of `get_historical_average` is an input
  `historical_avg : Option ℝ` (`none` models an empty result set / NULL
  average, which the source turns into an error).
* The broadcast channel is modelled by the list of events sent; a send with no
  subscribers still counts as an emitted event (the source ignores the send
  error), and an errored tick sends nothing.
* The manipulation detector keeps per-symbol state; all claims are about a
  single symbol, so the state is that symbol's `Vec<(f64, i64)>` history.
-/

/-- One observation from one oracle source (struct `PriceData`). -/
structure PriceData where
  symbol : String
  price : ℝ
  confidence : ℝ
  timestamp : ℤ
  source : String
deriving Inhabited

/-- Reconciled output for one tick (struct `AggregatedPrice`). -/
structure AggregatedPrice where
  symbol : String
  mark_price : ℝ
  index_price : ℝ
  confidence : ℝ
  sources : List PriceData
  timestamp : ℤ

/-- Event broadcast to subscribers (struct `PriceUpdateEvent`). -/
structure PriceUpdateEvent where
  symbol : String
  mark_price : ℝ
  index_price : ℝ
  confidence : ℝ
  timestamp : ℤ
  sources : List String
  manipulation_score : ℝ

/-- The error kinds the engine distinguishes, one per `anyhow!` site in the
source, except that `noPriceData` stands for both "No price data available
from any oracle source" (empty fetch) and "No price data to aggregate" (the
reconciler's own empty-input guard, unreachable through the manager). -/
inductive OracleError where
  | noPriceData
  | allStale
  | noSources
  | singleSourceUnreasonable
  | lowSingleSourceConfidence
  | deviationTooHigh
  | stale
  | historyUnavailable
deriving DecidableEq

/-- Arithmetic mean `l.iter().sum() / l.len()` as the source computes it. -/
noncomputable def list_mean (l : List ℝ) : ℝ := l.sum / l.length

/-- Population variance `Σ (p - mean)^2 / n` as the source computes it. -/
noncomputable def list_variance (l : List ℝ) : ℝ :=
  ((l.map fun p => (p - list_mean l) ^ 2).sum) / l.length

/-- Maximum of a list of reals.  The source folds `f64::max` from
`NEG_INFINITY`; on the non-empty windows it is applied to this equals the
plain maximum, which is what the model computes. -/
noncomputable def list_max : List ℝ → ℝ
  | [] => 0
  | x :: xs => xs.foldl max x

/-- Sliding windows of length `n`, as Rust's `slice::windows(n)`: one window
per start index, none when the list is shorter than `n`. -/
def list_windows {α : Type} (n : ℕ) (l : List α) : List (List α) :=
  (List.range (l.length + 1 - n)).map fun i => (l.drop i).take n

/-- ManipulationDetector::calculate_velocity_score (price_aggregator.rs
lines 89-109): average relative step over the 5 most recent prices (newest
first), scaled by 100 and capped at 1. -/
noncomputable def calculate_velocity_score (prices : List (ℝ × ℤ)) (_current_price : ℝ) : ℝ :=
  if prices.length < 5 then 0
  else
    let recent_prices := (prices.reverse.take 5).map Prod.fst
    let velocity := ((recent_prices.zip recent_prices.tail).map
      fun ab => |ab.1 - ab.2| / ab.2).sum
    let avg_velocity := velocity / ((recent_prices.length - 1 : ℕ) : ℝ)
    min (avg_velocity * 100) 1

/-- ManipulationDetector::calculate_volatility_score (lines 111-128):
coefficient of variation scaled by 10 and capped at 1. -/
noncomputable def calculate_volatility_score (prices : List (ℝ × ℤ)) : ℝ :=
  if prices.length < 10 then 0
  else
    let price_values := prices.map Prod.fst
    let std_dev := Real.sqrt (list_variance price_values)
    let coefficient_of_variation := std_dev / list_mean price_values
    min (coefficient_of_variation * 10) 1

/-- Contribution of one length-10 window in detect_pump_dump_pattern:
0.1 when peak/start > 1.1 and peak/end > 1.08, else 0. -/
noncomputable def pump_dump_window_score (window : List ℝ) : ℝ :=
  let start := window.headI
  let peak := list_max window
  let last := window.getLastI
  if peak / start > 1.1 ∧ peak / last > 1.08 then 0.1 else 0

/-- ManipulationDetector::detect_pump_dump_pattern (lines 130-154).  Note the
source returns 0 for histories shorter than 20 entries before any window is
examined. -/
noncomputable def detect_pump_dump_pattern (prices : List (ℝ × ℤ)) : ℝ :=
  if prices.length < 20 then 0
  else
    let price_values := prices.map Prod.fst
    min (((list_windows 10 price_values).map pump_dump_window_score).sum) 1

/-- ManipulationDetector::calculate_outlier_score (lines 156-175).  The source
computes `z = |current - mean| / std_dev` in f64 with no zero guard: when
`std_dev = 0` this is NaN (0/0) or `+inf`, and `(z / 3.0).min(1.0)` then
evaluates to 1.0 in both cases, because Rust's `f64::min` returns the other
operand when one is NaN and `min(+inf, 1) = 1`.  That behaviour is modelled by
the explicit `std_dev = 0` branch. -/
noncomputable def calculate_outlier_score (prices : List (ℝ × ℤ)) (current_price : ℝ) : ℝ :=
  if prices.length < 10 then 0
  else
    let price_values := prices.map Prod.fst
    let mean := list_mean price_values
    let std_dev := Real.sqrt (list_variance price_values)
    if std_dev = 0 then 1
    else min (|current_price - mean| / std_dev / 3) 1

/-- ManipulationDetector::calculate_manipulation_score (lines 63-87): with
fewer than 10 retained entries the score is 0, otherwise the weighted sum of
the four sub-scores with weights 0.3, 0.25, 0.25, 0.2. -/
noncomputable def calculate_manipulation_score (prices : List (ℝ × ℤ)) (current_price : ℝ) : ℝ :=
  if prices.length < 10 then 0
  else
    calculate_velocity_score prices current_price * 0.3 +
    calculate_volatility_score prices * 0.25 +
    detect_pump_dump_pattern prices * 0.25 +
    calculate_outlier_score prices current_price * 0.2

/-- ManipulationDetector::analyze_price (lines 44-61): append the new price,
evict entries older than the 300 s window, bound the history to 1000 entries
(oldest dropped first), and score.  Returns the new per-symbol history and the
manipulation score. -/
noncomputable def analyze_price (history : List (ℝ × ℤ)) (price : ℝ) (timestamp : ℤ) :
    List (ℝ × ℤ) × ℝ :=
  let appended := history ++ [(price, timestamp)]
  let cutoff_time := timestamp - 300
  let retained := appended.filter fun pt => cutoff_time ≤ pt.2
  let bounded :=
    if 1000 < retained.length then retained.drop (retained.length - 1000) else retained
  (bounded, calculate_manipulation_score bounded price)

/-- OracleManager::calculate_aggregated_price (oracle_client.rs lines
486-537): drop quotes staler than 30 s, weight the survivors by
`1 / (1 + confidence)`, and return the confidence-weighted mean as both mark
and index price, with the arithmetic mean of the confidences. -/
noncomputable def calculate_aggregated_price (symbol : String) (prices : List PriceData)
    (current_time : ℤ) : Except OracleError AggregatedPrice :=
  if prices.isEmpty then .error .noPriceData
  else
    let valid_prices := prices.filter fun p => current_time - p.timestamp ≤ 30
    if valid_prices.isEmpty then .error .allStale
    else
      let total_weight := (valid_prices.map fun p => 1 / (1 + p.confidence)).sum
      let weighted_sum := (valid_prices.map fun p => p.price * (1 / (1 + p.confidence))).sum
      let mark_price := weighted_sum / total_weight
      let avg_confidence := (valid_prices.map fun p => p.confidence).sum / valid_prices.length
      .ok { symbol := symbol, mark_price := mark_price, index_price := mark_price,
            confidence := avg_confidence, sources := valid_prices, timestamp := current_time }

/-- Result of OracleManager::get_aggregated_price: the returned value, the
per-symbol cache entry afterwards (an `AggregatedPrice` with the millisecond
instant it was inserted), and the rows written to the history store. -/
structure AggregationOutcome where
  result : Except OracleError AggregatedPrice
  cache : Option (AggregatedPrice × ℤ)
  inserted : List AggregatedPrice

/-- Cache-miss path of OracleManager::get_aggregated_price (lines 446-483):
fail if no adapter returned a quote, otherwise reconcile, store the row, and
refresh the cache.  On failure the stale cache entry is left in place and
nothing is stored. -/
noncomputable def fetch_and_aggregate (cache : Option (AggregatedPrice × ℤ)) (nowMs : ℤ)
    (fetched : List PriceData) (symbol : String) : AggregationOutcome :=
  if fetched.isEmpty then ⟨.error .noPriceData, cache, []⟩
  else
    match calculate_aggregated_price symbol fetched (nowMs / 1000) with
    | .error e => ⟨.error e, cache, []⟩
    | .ok aggregated => ⟨.ok aggregated, some (aggregated, nowMs), [aggregated]⟩

/-- OracleManager::get_aggregated_price (lines 435-484): serve from the cache
when the entry is younger than the 500 ms TTL, otherwise poll the adapters
afresh. -/
noncomputable def get_aggregated_price (cache : Option (AggregatedPrice × ℤ)) (nowMs : ℤ)
    (fetched : List PriceData) (symbol : String) : AggregationOutcome :=
  match cache with
  | some (price, cached_at) =>
    if nowMs - cached_at < 500 then ⟨.ok price, cache, []⟩
    else fetch_and_aggregate cache nowMs fetched symbol
  | none => fetch_and_aggregate cache nowMs fetched symbol

/-- PriceAggregator::validate_price_sources (price_aggregator.rs lines
247-288) with the constructor's `health_threshold = 0.05`: no sources fails;
a single source must have a reasonable price and confidence ratio at most 5%;
with several sources every price must lie within 5% of the unweighted mean. -/
noncomputable def validate_price_sources (price : AggregatedPrice) : Except OracleError Unit :=
  if price.sources.isEmpty then .error .noSources
  else if price.sources.length = 1 then
    let source_price := price.sources.headI
    if source_price.price ≤ 0 ∨ 1000000 < source_price.price then
      .error .singleSourceUnreasonable
    else if 0.05 < source_price.confidence / source_price.price then
      .error .lowSingleSourceConfidence
    else .ok ()
  else
    let prices := price.sources.map fun s => s.price
    let mean_price := prices.sum / prices.length
    if ∃ sp ∈ prices, 0.05 < |sp - mean_price| / mean_price then .error .deviationTooHigh
    else .ok ()

/-- PriceAggregator::validate_price_freshness (lines 290-310): the aggregate
timestamp must be at most 30 s old.  The per-source 60 s check only logs a
warning and cannot fail, so it does not appear in the model. -/
noncomputable def validate_price_freshness (price : AggregatedPrice) (current_time : ℤ) :
    Except OracleError Unit :=
  if 30 < current_time - price.timestamp then .error .stale else .ok ()

/-- PriceAggregator::get_historical_average (lines 336-356), with the
history-store `AVG(price)` query result passed in: a NULL average (no rows in
the window) is turned into an error by the source's `ok_or_else`. -/
noncomputable def get_historical_average (historical_avg : Option ℝ) : Except OracleError ℝ :=
  match historical_avg with
  | none => .error .historyUnavailable
  | some avg => .ok avg

/-- PriceAggregator::apply_conservative_pricing (lines 312-334): blend mark
and index 20% toward the historical average, scale the confidence interval by
1.5, keep sources and timestamp.  A missing historical average propagates the
error through the `?` operator. -/
noncomputable def apply_conservative_pricing (price : AggregatedPrice)
    (historical_avg : Option ℝ) : Except OracleError AggregatedPrice :=
  match get_historical_average historical_avg with
  | .error e => .error e
  | .ok avg =>
    let adjustment_factor : ℝ := 0.2
    .ok { symbol := price.symbol,
          mark_price := price.mark_price * (1 - adjustment_factor) + avg * adjustment_factor,
          index_price := price.index_price * (1 - adjustment_factor) + avg * adjustment_factor,
          confidence := price.confidence * 1.5,
          sources := price.sources,
          timestamp := price.timestamp }

/-- Full observable outcome of one PriceAggregator::get_price_with_validation
tick: the returned value, the cache and detector state afterwards, the
history-store rows written, and the broadcast events sent. -/
structure TickOutcome where
  result : Except OracleError AggregatedPrice
  cache : Option (AggregatedPrice × ℤ)
  detector : List (ℝ × ℤ)
  inserted : List AggregatedPrice
  events : List PriceUpdateEvent

/-- PriceAggregator::get_price_with_validation (lines 206-245): aggregate
(possibly from cache), score for manipulation, validate sources then
freshness, blend conservatively when the score exceeds the 0.7 threshold, and
finally broadcast the published price.  Every early error skips the broadcast
but keeps whatever the aggregation step already wrote. -/
noncomputable def get_price_with_validation (cache : Option (AggregatedPrice × ℤ))
    (detector : List (ℝ × ℤ)) (nowMs : ℤ) (fetched : List PriceData)
    (historical_avg : Option ℝ) (symbol : String) : TickOutcome :=
  let a := get_aggregated_price cache nowMs fetched symbol
  match a.result with
  | .error e => ⟨.error e, a.cache, detector, a.inserted, []⟩
  | .ok aggregated =>
    let analyzed := analyze_price detector aggregated.mark_price aggregated.timestamp
    let manipulation_score := analyzed.2
    match validate_price_sources aggregated with
    | .error e => ⟨.error e, a.cache, analyzed.1, a.inserted, []⟩
    | .ok _ =>
      match validate_price_freshness aggregated (nowMs / 1000) with
      | .error e => ⟨.error e, a.cache, analyzed.1, a.inserted, []⟩
      | .ok _ =>
        match (if 0.7 < manipulation_score
               then apply_conservative_pricing aggregated historical_avg
               else .ok aggregated) with
        | .error e => ⟨.error e, a.cache, analyzed.1, a.inserted, []⟩
        | .ok finalPrice =>
          ⟨.ok finalPrice, a.cache, analyzed.1, a.inserted,
           [{ symbol := finalPrice.symbol,
              mark_price := finalPrice.mark_price,
              index_price := finalPrice.index_price,
              confidence := finalPrice.confidence,
              timestamp := finalPrice.timestamp,
              sources := finalPrice.sources.map fun s => s.source,
              manipulation_score := manipulation_score }]⟩

/-- Claim C4 compares the pump-dump sub-score of the source against the
formula stated by the specification.  Modelled from the spec: "Slide a
length-10 window over `H`; for each window let `a` = first, `z` = last,
`m` = max.  If `m/a > 1.10` and `m/z > 1.08`, add 0.10.  Sum over windows,
cap at 1.0" — with no minimum history length beyond what the windows
themselves require. -/
noncomputable def pump_dump_spec_formula (prices : List (ℝ × ℤ)) : ℝ :=
  min (((list_windows 10 (prices.map Prod.fst)).map pump_dump_window_score).sum) 1

/-! ### Shared concrete data used by witnesses and counterexamples -/

/-- A well-formed single-source quote used as cache content in several
concrete scenarios: one Pyth quote at 100 with confidence band 1. -/
noncomputable def simpleQuote : PriceData := ⟨"BTC/USD", 100, 1, 1000, "Pyth"⟩

/-- The aggregated price built from `simpleQuote` alone. -/
noncomputable def simplePrice : AggregatedPrice := ⟨"BTC/USD", 100, 100, 1, [simpleQuote], 1000⟩

/-- Two fresh quotes 12 units apart (more than 5% of their mean), used to
drive the deviation validator into an error after a successful aggregation. -/
noncomputable def deviatingQuotes : List PriceData :=
  [⟨"BTC/USD", 100, 1, 1000, "Pyth"⟩, ⟨"BTC/USD", 112, 1, 1000, "Switchboard"⟩]

/-- The aggregate the reconciler produces from `deviatingQuotes` at second
1000: both weights are 1/2, so the mark is 106. -/
noncomputable def deviatingAggregate : AggregatedPrice :=
  ⟨"BTC/USD", 106, 106, 1, deviatingQuotes, 1000⟩

/-- Nine alternating negative prices; analysing one more price −3 on top of
them produces the ten-entry history `negativeTen`. -/
noncomputable def negativeHistory : List (ℝ × ℤ) :=
  [(-1, 0), (-3, 0), (-1, 0), (-3, 0), (-1, 0), (-3, 0), (-1, 0), (-3, 0), (-1, 0)]

/-- The detector history after analysing price −3 at time 0 on
`negativeHistory`: five prices −1 and five prices −3, mean −2, variance 1. -/
noncomputable def negativeTen : List (ℝ × ℤ) :=
  [(-1, 0), (-3, 0), (-1, 0), (-3, 0), (-1, 0), (-3, 0), (-1, 0), (-3, 0), (-1, 0), (-3, 0)]

/-- Eighteen-entry prior detector history (spikes of 500 at positions 4 and
13, a dip to 10 at position 18, all inside the retention window of the cached
aggregation timestamp 1000).  Analysing the cached mark 100 on top of it once
gives 19 entries and a score at most 0.7 (no pump-dump windows are counted
below 20 entries); analysing it a second time gives 20 entries with ten
qualifying pump-dump windows and a score above 0.7. -/
noncomputable def spikedHistory : List (ℝ × ℤ) :=
  [(100, 1000), (100, 1000), (100, 1000), (500, 1000), (100, 1000), (100, 1000),
   (100, 1000), (100, 1000), (100, 1000), (100, 1000), (100, 1000), (100, 1000),
   (500, 1000), (100, 1000), (100, 1000), (100, 1000), (100, 1000), (10, 1000)]

/-- The detector history after one analysis of the cached mark 100. -/
noncomputable def spikedNineteen : List (ℝ × ℤ) := spikedHistory ++ [(100, 1000)]

/-- The detector history after a second analysis of the cached mark 100. -/
noncomputable def spikedTwenty : List (ℝ × ℤ) := spikedNineteen ++ [(100, 1000)]

/-- A ten-entry history whose single length-10 window is a pump-and-dump
shape (peak 150 over ends 100): long enough for the specification's window
formula but shorter than the source's 20-entry guard. -/
noncomputable def shortPumpHistory : List (ℝ × ℤ) :=
  [(100, 0), (150, 0), (100, 0), (100, 0), (100, 0),
   (100, 0), (100, 0), (100, 0), (100, 0), (100, 0)]

/-! ### Bit-exact binary64 model for the single-quote mark (claim C6) -/

/-- Floor of the base-2 logarithm of a natural number (0 for 0 and 1), with a
fuel argument bounding the recursion; fuel 400 is ample for every number
occurring here. -/
def fuel_log2 : ℕ → ℕ → ℕ
  | 0, _ => 0
  | fuel + 1, n => if n ≤ 1 then 0 else fuel_log2 fuel (n / 2) + 1

/-- Floor of the base-2 logarithm of the positive rational `a / b`. -/
def ratlog2 (a b : ℤ) : ℤ :=
  let e0 : ℤ := (fuel_log2 400 a.natAbs : ℤ) - (fuel_log2 400 b.natAbs : ℤ)
  if b * ((2 ^ e0.toNat : ℕ) : ℤ) ≤ a * ((2 ^ (-e0).toNat : ℕ) : ℤ) then e0 else e0 - 1

/-- IEEE-754 binary64 rounding (round to nearest, ties to even) of the
positive rational `a / b`, returned exactly as a pair (numerator,
power-of-two denominator).  The significand is the integer nearest to
`(a / b) · 2 ^ (52 - e)` with `e = ⌊log₂ (a/b)⌋`, ties broken to even.
Overflow and subnormals cannot occur in the value range exercised here
(magnitudes between 2⁻¹⁰ and 2⁶⁰), so they are not modelled. -/
def roundF64 (a b : ℤ) : ℤ × ℤ :=
  if a ≤ 0 ∨ b ≤ 0 then (0, 1)
  else
    let e : ℤ := ratlog2 a b
    let A : ℤ := a * ((2 ^ (52 - e).toNat : ℕ) : ℤ)
    let B : ℤ := b * ((2 ^ (e - 52).toNat : ℕ) : ℤ)
    let n : ℤ := A.fdiv B
    let rem : ℤ := A - n * B
    let r : ℤ :=
      if 2 * rem < B then n
      else if B < 2 * rem then n + 1
      else if n % 2 = 0 then n else n + 1
    if (0 : ℤ) ≤ e - 52 then (r * ((2 ^ (e - 52).toNat : ℕ) : ℤ), 1)
    else (r, ((2 ^ (52 - e).toNat : ℕ) : ℤ))

/-- The IEEE-754 binary64 evaluation of calculate_aggregated_price's
confidence-weighted mark on a SINGLE quote with integer price `p` and
integer confidence `c` (both exactly representable): the source computes
`weight = 1.0 / (1.0 + confidence)`, accumulates
`weighted_sum = 0.0 + price * weight` and `total_weight = 0.0 + weight`
(additions of 0.0 are exact in IEEE-754 and so do not round), and returns
`mark = weighted_sum / total_weight`.  Every remaining operation is one
binary64 rounding, modelled by `roundF64` on the exact rationals. -/
def single_quote_mark_f64 (p c : ℤ) : ℤ × ℤ :=
  let one_plus_conf := roundF64 (1 + c) 1
  let weight := roundF64 one_plus_conf.2 one_plus_conf.1
  let weighted_sum := roundF64 (p * weight.1) weight.2
  roundF64 (weighted_sum.1 * weight.2) (weighted_sum.2 * weight.1)

/-! ### Claim C9 -/

/-- Claim C9 (amended): for every NON-EMPTY quote list, inserting an
additional quote whose timestamp is more than 30 s old anywhere in the list
does not change the reconciler output at all — mark, confidence, retained
sources and even the error case coincide, because the staleness filter drops
the quote before any arithmetic. -/
theorem stale_quote_no_effect (symbol : String) (nowS : ℤ) (l1 l2 : List PriceData)
    (q : PriceData) (hq : 30 < nowS - q.timestamp) (hne : l1 ++ l2 ≠ []) :
    calculate_aggregated_price symbol (l1 ++ q :: l2) nowS =
      calculate_aggregated_price symbol (l1 ++ l2) nowS := by
  have hqd : (decide (nowS - q.timestamp ≤ 30)) = false := by
    simp only [decide_eq_false_iff_not]
    omega
  have hfilter :
      (l1 ++ q :: l2).filter (fun p => decide (nowS - p.timestamp ≤ 30)) =
      (l1 ++ l2).filter (fun p => decide (nowS - p.timestamp ≤ 30)) := by
    rw [List.filter_append, List.filter_append,
      List.filter_cons_of_neg (by simp only [decide_eq_true_eq]; omega)]
  have h1 : (l1 ++ q :: l2).isEmpty = false := by cases l1 <;> simp
  have h2 : (l1 ++ l2).isEmpty = false := by
    simpa [List.isEmpty_iff] using hne
  simp only [calculate_aggregated_price, h1, h2, hfilter, Bool.false_eq_true, if_false]

/-- Witness for C9: adding a quote that is 1000 s old to a singleton list of
one fresh quote leaves the reconciler output unchanged. -/
theorem stale_quote_no_effect_witness :
    calculate_aggregated_price "BTC/USD" [simpleQuote, ⟨"BTC/USD", 90, 1, 0, "Pyth"⟩] 1000 =
      calculate_aggregated_price "BTC/USD" [simpleQuote] 1000 := by
  have h := stale_quote_no_effect "BTC/USD" 1000 [simpleQuote] []
    ⟨"BTC/USD", 90, 1, 0, "Pyth"⟩ (by norm_num) (by simp)
  simpa using h

/-- Counterexample to C9 as literally stated (over every quote list including
the empty one): on `L = []` the reconciler fails with `noPriceData`, while
with the stale quote added it fails with `allStale`, so the two outputs
differ. -/
theorem stale_quote_counterexample :
    calculate_aggregated_price "BTC/USD" [⟨"BTC/USD", 100, 1, 0, "Pyth"⟩] 1000 =
      .error .allStale ∧
    calculate_aggregated_price "BTC/USD" ([] : List PriceData) 1000 = .error .noPriceData ∧
    (OracleError.allStale ≠ OracleError.noPriceData) := by
  have hd : (decide ((1000 : ℤ) - 0 ≤ 30)) = false := by decide
  refine ⟨?_, ?_, by decide⟩
  · simp [calculate_aggregated_price, hd]
  · simp [calculate_aggregated_price]

/-! ### Claim C3 (cache TTL) -/

/-- Claim C3 (amended): the coherence-cache layer is byte-coherent — while
the cached entry is younger than the 500 ms TTL, `get_aggregated_price`
returns exactly the cached `AggregatedPrice`, polls nothing and stores
nothing; once the TTL has elapsed it takes the fresh-polling path
`fetch_and_aggregate`, which consults all adapters.  (The full validated
tick built on top of it is NOT value-stable within the TTL; see the
counterexample.) -/
theorem cache_ttl_behaviour (p : AggregatedPrice) (cached_at nowMs : ℤ)
    (fetched : List PriceData) (symbol : String) :
    (nowMs - cached_at < 500 →
      get_aggregated_price (some (p, cached_at)) nowMs fetched symbol =
        ⟨.ok p, some (p, cached_at), []⟩) ∧
    (500 ≤ nowMs - cached_at →
      get_aggregated_price (some (p, cached_at)) nowMs fetched symbol =
        fetch_and_aggregate (some (p, cached_at)) nowMs fetched symbol) := by
  constructor
  · intro h
    simp [get_aggregated_price, h]
  · intro h
    simp [get_aggregated_price, not_lt.mpr h]

/-- Witness for the amended C3: a 400 ms old cache entry is served verbatim
with no store, and a 600 ms old one goes to the polling path. -/
theorem cache_ttl_behaviour_witness :
    ((1400 : ℤ) - 1000 < 500 ∧
      get_aggregated_price (some (simplePrice, 1000)) 1400 [] "BTC/USD" =
        ⟨.ok simplePrice, some (simplePrice, 1000), []⟩) ∧
    ((500 : ℤ) ≤ 1600 - 1000 ∧
      get_aggregated_price (some (simplePrice, 1000)) 1600 [] "BTC/USD" =
        fetch_and_aggregate (some (simplePrice, 1000)) 1600 [] "BTC/USD") := by
  exact ⟨⟨by norm_num, (cache_ttl_behaviour simplePrice 1000 1400 [] "BTC/USD").1 (by norm_num)⟩,
         ⟨by norm_num, (cache_ttl_behaviour simplePrice 1000 1600 [] "BTC/USD").2 (by norm_num)⟩⟩

/-! ### Claim C1 -/

/-- Claim C1 (amended): a tick of `get_price_with_validation` that returns an
error never broadcasts an event; however, the rows written to the history
store are exactly those written by the aggregation step, which runs BEFORE
validation — so a tick that aggregates successfully on a cache miss and then
fails validation has already persisted one row. -/
theorem errored_tick_emits_no_event (cache : Option (AggregatedPrice × ℤ))
    (detector : List (ℝ × ℤ)) (nowMs : ℤ) (fetched : List PriceData)
    (historical_avg : Option ℝ) (symbol : String) :
    (∀ e, (get_price_with_validation cache detector nowMs fetched historical_avg symbol).result
        = .error e →
      (get_price_with_validation cache detector nowMs fetched historical_avg symbol).events
        = []) ∧
    (get_price_with_validation cache detector nowMs fetched historical_avg symbol).inserted =
      (get_aggregated_price cache nowMs fetched symbol).inserted := by
  rcases hres : (get_aggregated_price cache nowMs fetched symbol).result with e0 | price
  · constructor
    · intro e _
      simp [get_price_with_validation, hres]
    · simp [get_price_with_validation, hres]
  · rcases hsv : validate_price_sources price with e1 | u1
    · constructor
      · intro e _
        simp [get_price_with_validation, hres, hsv]
      · simp [get_price_with_validation, hres, hsv]
    · rcases hsf : validate_price_freshness price (nowMs / 1000) with e2 | u2
      · constructor
        · intro e _
          simp [get_price_with_validation, hres, hsv, hsf]
        · simp [get_price_with_validation, hres, hsv, hsf]
      · by_cases hsc : (0.7 : ℝ) < (analyze_price detector price.mark_price price.timestamp).2
        · rcases hb : apply_conservative_pricing price historical_avg with e3 | blended
          · constructor
            · intro e _
              simp [get_price_with_validation, hres, hsv, hsf, hsc, hb]
            · simp [get_price_with_validation, hres, hsv, hsf, hsc, hb]
          · constructor
            · intro e he
              simp [get_price_with_validation, hres, hsv, hsf, hsc, hb] at he
            · simp [get_price_with_validation, hres, hsv, hsf, hsc, hb]
        · constructor
          · intro e he
            simp [get_price_with_validation, hres, hsv, hsf, hsc] at he
          · simp [get_price_with_validation, hres, hsv, hsf, hsc]

/-- Evaluation of the reconciler on the two deviating quotes: both weights
are `1/(1+1)`, the weighted mean is 106, the average confidence is 1. -/
lemma deviating_agg_eval :
    calculate_aggregated_price "BTC/USD" deviatingQuotes 1000 = .ok deviatingAggregate := by
  norm_num [calculate_aggregated_price, deviatingQuotes, deviatingAggregate,
    List.filter_cons, AggregatedPrice.mk.injEq]

/-- Evaluation of the cache-miss aggregation on the deviating quotes: it
succeeds, refreshes the cache and writes one row. -/
lemma deviating_fetch_eval :
    get_aggregated_price none 1000000 deviatingQuotes "BTC/USD" =
      ⟨.ok deviatingAggregate, some (deviatingAggregate, 1000000), [deviatingAggregate]⟩ := by
  have h : ((1000000 : ℤ) / 1000) = 1000 := by norm_num
  have hne : deviatingQuotes.isEmpty = false := by simp [deviatingQuotes]
  rw [get_aggregated_price, fetch_and_aggregate, h, deviating_agg_eval]
  simp [hne]

/-- The source validator rejects the deviating aggregate: 100 deviates from
the unweighted mean 106 by more than 5%. -/
lemma deviating_validate_eval :
    validate_price_sources deviatingAggregate = .error .deviationTooHigh := by
  have hmem : (100 : ℝ) ∈ (deviatingAggregate.sources.map fun s => s.price) := by
    simp [deviatingAggregate, deviatingQuotes]
  rw [validate_price_sources]
  rw [if_neg (by simp [deviatingAggregate, deviatingQuotes]),
    if_neg (by simp [deviatingAggregate, deviatingQuotes]),
    if_pos]
  refine ⟨100, hmem, ?_⟩
  norm_num [deviatingAggregate, deviatingQuotes]

/-- Full evaluation of the errored tick on the deviating quotes: the result
is `deviationTooHigh`, yet one row was already written by the aggregation
step; no event is broadcast; the detector history absorbed the mark 106. -/
lemma deviating_tick_eval :
    get_price_with_validation none [] 1000000 deviatingQuotes none "BTC/USD" =
      ⟨.error .deviationTooHigh, some (deviatingAggregate, 1000000), [((106 : ℝ), (1000 : ℤ))],
       [deviatingAggregate], []⟩ := by
  simp only [get_price_with_validation]
  rw [deviating_fetch_eval]
  simp only []
  rw [deviating_validate_eval]
  simp [analyze_price, deviatingAggregate, List.filter_cons]

/-- Counterexample to C1 as stated: a tick returning the validation error
`DeviationTooHigh` has nonetheless inserted a row into the history store,
because `get_aggregated_price` persists before validation runs. -/
theorem deviation_error_still_writes_row :
    (get_price_with_validation none [] 1000000 deviatingQuotes none "BTC/USD").result =
      .error .deviationTooHigh ∧
    (get_price_with_validation none [] 1000000 deviatingQuotes none "BTC/USD").inserted ≠ [] := by
  rw [deviating_tick_eval]
  simp

/-- Witness for the amended C1, exercised at a concrete errored tick (the
deviation input): no event is emitted, and the inserted rows are exactly
those of the aggregation step. -/
theorem errored_tick_emits_no_event_witness :
    (get_price_with_validation none [] 1000000 deviatingQuotes none "BTC/USD").events = [] ∧
    (get_price_with_validation none [] 1000000 deviatingQuotes none "BTC/USD").inserted =
      (get_aggregated_price none 1000000 deviatingQuotes "BTC/USD").inserted := by
  refine ⟨?_, (errored_tick_emits_no_event none [] 1000000 deviatingQuotes none "BTC/USD").2⟩
  exact (errored_tick_emits_no_event none [] 1000000 deviatingQuotes none "BTC/USD").1
    .deviationTooHigh (by rw [deviating_tick_eval])

/-! ### Claim C7 -/

/-- Helper: the confidence-weighted mean of a non-empty quote list with
positive weights is bounded by some member price on each side. -/
lemma weighted_mean_bounds (l : List PriceData) (hne : l ≠ [])
    (hw : ∀ q ∈ l, 0 < 1 / (1 + q.confidence)) :
    (∃ q ∈ l, q.price ≤ (l.map fun p => p.price * (1 / (1 + p.confidence))).sum /
        (l.map fun p => 1 / (1 + p.confidence)).sum) ∧
    (∃ q ∈ l, (l.map fun p => p.price * (1 / (1 + p.confidence))).sum /
        (l.map fun p => 1 / (1 + p.confidence)).sum ≤ q.price) := by
  set W := (l.map fun p => 1 / (1 + p.confidence)).sum with hWdef
  set S := (l.map fun p => p.price * (1 / (1 + p.confidence))).sum with hSdef
  have hW : 0 < W := by
    refine List.sum_pos _ ?_ (by simpa using hne)
    intro x hx
    obtain ⟨q, hql, rfl⟩ := List.mem_map.mp hx
    exact hw q hql
  constructor
  · by_contra hcon
    push_neg at hcon
    have hlt : (l.map fun q => S / W * (1 / (1 + q.confidence))).sum <
        (l.map fun q => q.price * (1 / (1 + q.confidence))).sum := by
      refine List.sum_lt_sum_of_ne_nil hne _ _ fun q hqm => ?_
      exact mul_lt_mul_of_pos_right (hcon q hqm) (hw q hqm)
    rw [List.sum_map_mul_left] at hlt
    rw [← hSdef, ← hWdef, div_mul_cancel₀ S (ne_of_gt hW)] at hlt
    exact lt_irrefl S hlt
  · by_contra hcon
    push_neg at hcon
    have hlt : (l.map fun q => q.price * (1 / (1 + q.confidence))).sum <
        (l.map fun q => S / W * (1 / (1 + q.confidence))).sum := by
      refine List.sum_lt_sum_of_ne_nil hne _ _ fun q hqm => ?_
      exact mul_lt_mul_of_pos_right (hcon q hqm) (hw q hqm)
    rw [List.sum_map_mul_left] at hlt
    rw [← hSdef, ← hWdef, div_mul_cancel₀ S (ne_of_gt hW)] at hlt
    exact lt_irrefl S hlt

/-- Claim C7: for every non-empty list of fresh quotes with positive prices
and non-negative confidence bands, the reconciler succeeds and its mark price
lies between the minimum and the maximum input price (expressed as: some
input price is below it and some input price is above it). -/
theorem consensus_mark_within_bounds (symbol : String) (nowS : ℤ) (prices : List PriceData)
    (hne : prices ≠ [])
    (hq : ∀ q ∈ prices, 0 < q.price ∧ 0 ≤ q.confidence ∧ nowS - q.timestamp ≤ 30) :
    ∃ a, calculate_aggregated_price symbol prices nowS = .ok a ∧
      (∃ q ∈ prices, q.price ≤ a.mark_price) ∧ (∃ q ∈ prices, a.mark_price ≤ q.price) := by
  have hfilter : prices.filter (fun p => decide (nowS - p.timestamp ≤ 30)) = prices :=
    List.filter_eq_self.mpr fun a ha => by
      simp only [decide_eq_true_eq]
      exact (hq a ha).2.2
  have hEmpty : prices.isEmpty = false := by simpa [List.isEmpty_iff] using hne
  have hw : ∀ q ∈ prices, 0 < 1 / (1 + q.confidence) := fun q hqm => by
    have := (hq q hqm).2.1
    positivity
  obtain ⟨h1, h2⟩ := weighted_mean_bounds prices hne hw
  refine ⟨⟨symbol,
    (prices.map fun p => p.price * (1 / (1 + p.confidence))).sum /
      (prices.map fun p => 1 / (1 + p.confidence)).sum,
    (prices.map fun p => p.price * (1 / (1 + p.confidence))).sum /
      (prices.map fun p => 1 / (1 + p.confidence)).sum,
    (prices.map fun p => p.confidence).sum / prices.length,
    prices, nowS⟩, ?_, h1, h2⟩
  unfold calculate_aggregated_price
  rw [hfilter, hEmpty]
  norm_num
  exact fun he => absurd he hne

/-- Witness for C7 on two concrete fresh quotes at 100 and 112: the theorem
applies and yields a mark bounded by input prices. -/
theorem consensus_mark_within_bounds_witness :
    deviatingQuotes ≠ [] ∧
    (∀ q ∈ deviatingQuotes, 0 < q.price ∧ 0 ≤ q.confidence ∧ (1000 : ℤ) - q.timestamp ≤ 30) ∧
    (∃ a, calculate_aggregated_price "BTC/USD" deviatingQuotes 1000 = .ok a ∧
      (∃ q ∈ deviatingQuotes, q.price ≤ a.mark_price) ∧
      (∃ q ∈ deviatingQuotes, a.mark_price ≤ q.price)) := by
  have hval : ∀ q ∈ deviatingQuotes, 0 < q.price ∧ 0 ≤ q.confidence ∧
      (1000 : ℤ) - q.timestamp ≤ 30 := by
    intro q hq
    simp only [deviatingQuotes, List.mem_cons, List.not_mem_nil, or_false] at hq
    rcases hq with rfl | rfl <;> norm_num
  exact ⟨by simp [deviatingQuotes], hval,
    consensus_mark_within_bounds "BTC/USD" 1000 deviatingQuotes (by simp [deviatingQuotes]) hval⟩

/-! ### Claim C5 -/

/-- Claim C5: when a tick's aggregation and both validators succeed, the
published price is governed by the 0.7 manipulation threshold: with score
above 0.7 and an available historical mean `h`, the mark (and index) are
blended as `0.8·mark + 0.2·h`, the confidence is scaled by 1.5 and sources
and timestamp are unchanged; with score at most 0.7 the aggregate is
published verbatim. -/
theorem conservative_blend_formula (cache : Option (AggregatedPrice × ℤ))
    (detector : List (ℝ × ℤ)) (nowMs : ℤ) (fetched : List PriceData)
    (historical_avg : Option ℝ) (symbol : String) (p : AggregatedPrice) (h : ℝ)
    (hagg : (get_aggregated_price cache nowMs fetched symbol).result = .ok p)
    (hsv : validate_price_sources p = .ok ())
    (hsf : validate_price_freshness p (nowMs / 1000) = .ok ()) :
    (0.7 < (analyze_price detector p.mark_price p.timestamp).2 → historical_avg = some h →
      (get_price_with_validation cache detector nowMs fetched historical_avg symbol).result =
        .ok ⟨p.symbol, 0.8 * p.mark_price + 0.2 * h, 0.8 * p.index_price + 0.2 * h,
             p.confidence * 1.5, p.sources, p.timestamp⟩) ∧
    ((analyze_price detector p.mark_price p.timestamp).2 ≤ 0.7 →
      (get_price_with_validation cache detector nowMs fetched historical_avg symbol).result =
        .ok p) := by
  constructor
  · intro hsc hha
    subst hha
    simp only [get_price_with_validation, hagg, hsv, hsf, if_pos hsc,
      apply_conservative_pricing, get_historical_average]
    have hm : p.mark_price * (1 - 0.2) + h * 0.2 = 0.8 * p.mark_price + 0.2 * h := by ring
    have hi : p.index_price * (1 - 0.2) + h * 0.2 = 0.8 * p.index_price + 0.2 * h := by ring
    rw [hm, hi]
  · intro hsc
    simp only [get_price_with_validation, hagg, hsv, hsf, if_neg (not_lt.mpr hsc)]

/-! ### Claim C4 -/

/-- Claim C4 (amended): only for histories of at least 20 entries does the
pump-dump sub-score equal the specification's sliding-window formula (sum of
0.10 per qualifying length-10 window, capped at 1.0); that sub-score enters
the total manipulation score with weight 0.25.  For histories of 10 to 19
entries the source returns 0 before examining any window. -/
theorem pump_dump_window_sum (prices : List (ℝ × ℤ)) (current : ℝ)
    (h20 : 20 ≤ prices.length) :
    detect_pump_dump_pattern prices = pump_dump_spec_formula prices ∧
    calculate_manipulation_score prices current =
      calculate_velocity_score prices current * 0.3 +
      calculate_volatility_score prices * 0.25 +
      pump_dump_spec_formula prices * 0.25 +
      calculate_outlier_score prices current * 0.2 := by
  have hg : ¬(prices.length < 20) := by omega
  have h10 : ¬(prices.length < 10) := by omega
  constructor
  · simp only [detect_pump_dump_pattern, pump_dump_spec_formula, if_neg hg]
  · simp only [calculate_manipulation_score, if_neg h10, detect_pump_dump_pattern, if_neg hg,
      pump_dump_spec_formula]

/-- Witness for the amended C4 at a concrete 20-entry history. -/
theorem pump_dump_window_sum_witness :
    20 ≤ (List.replicate 20 ((100 : ℝ), (0 : ℤ))).length ∧
    detect_pump_dump_pattern (List.replicate 20 ((100 : ℝ), (0 : ℤ))) =
      pump_dump_spec_formula (List.replicate 20 ((100 : ℝ), (0 : ℤ))) := by
  exact ⟨by simp, (pump_dump_window_sum (List.replicate 20 ((100 : ℝ), (0 : ℤ))) 100 (by simp)).1⟩

/-- Counterexample to C4 as stated: on a 10-entry history with a qualifying
pump-dump window, the source's sub-score is 0 (the 20-entry guard fires)
while the claimed sliding-window formula gives 0.1. -/
theorem pump_dump_guard_counterexample :
    shortPumpHistory.length = 10 ∧
    detect_pump_dump_pattern shortPumpHistory = 0 ∧
    pump_dump_spec_formula shortPumpHistory = 0.1 := by
  refine ⟨by simp [shortPumpHistory], by simp [detect_pump_dump_pattern, shortPumpHistory], ?_⟩
  rw [pump_dump_spec_formula]
  norm_num [shortPumpHistory, list_windows, List.range_succ, pump_dump_window_score,
    list_max, max_def, List.getLastI, List.getLastD, min_def]

/-! ### Constant-list facts about the detector, used by C8 and C10 -/

lemma sum_of_const {l : List ℝ} {p : ℝ} (h : ∀ x ∈ l, x = p) : l.sum = l.length * p := by
  rw [List.eq_replicate_of_mem h]
  simp [List.sum_replicate, nsmul_eq_mul]

lemma list_mean_const {l : List ℝ} {p : ℝ} (hne : l ≠ []) (h : ∀ x ∈ l, x = p) :
    list_mean l = p := by
  have hlen0 : l.length ≠ 0 := by
    simpa [List.length_eq_zero] using hne
  have hlen : (l.length : ℝ) ≠ 0 := Nat.cast_ne_zero.mpr hlen0
  rw [list_mean, sum_of_const h, mul_comm, mul_div_assoc, div_self hlen, mul_one]

lemma list_variance_const {l : List ℝ} {p : ℝ} (h : ∀ x ∈ l, x = p) :
    list_variance l = 0 := by
  rcases eq_or_ne l [] with rfl | hne
  · simp [list_variance]
  · rw [list_variance, List.sum_eq_zero, zero_div]
    intro x hx
    obtain ⟨q, hql, rfl⟩ := List.mem_map.mp hx
    rw [h q hql, list_mean_const hne h]
    ring

lemma foldl_max_replicate (n : ℕ) (p : ℝ) : (List.replicate n p).foldl max p = p := by
  induction n with
  | zero => rfl
  | succ k ih => simp [List.replicate_succ, List.foldl_cons, max_self, ih]

lemma list_max_const {l : List ℝ} {p : ℝ} (h : ∀ x ∈ l, x = p) (hne : l ≠ []) :
    list_max l = p := by
  rcases l with _ | ⟨x, xs⟩
  · exact absurd rfl hne
  · have hx : x = p := h x (by simp)
    have hxs : ∀ y ∈ xs, y = p := fun y hy => h y (by simp [hy])
    rw [List.eq_replicate_of_mem hxs]
    simp only [list_max]
    rw [hx, foldl_max_replicate]

lemma getLastI_const {p : ℝ} : ∀ {l : List ℝ}, (∀ x ∈ l, x = p) → l ≠ [] → l.getLastI = p := by
  intro l
  induction l with
  | nil => exact fun _ hne => absurd rfl hne
  | cons x xs ih =>
    intro h _
    rcases hxs : xs with _ | ⟨y, ys⟩
    · simpa [List.getLastI] using h x (by simp)
    · subst hxs
      have htail : (y :: ys).getLastI = p :=
        ih (fun z hz => h z (List.mem_cons_of_mem x hz)) (by simp)
      rw [List.getLastI_eq_getLast?] at htail ⊢
      rwa [List.getLast?_cons_cons]

lemma pump_dump_window_score_const {w : List ℝ} {p : ℝ} (hp : p ≠ 0)
    (h : ∀ x ∈ w, x = p) (hne : w ≠ []) : pump_dump_window_score w = 0 := by
  have hhead : w.headI = p := by
    rcases w with _ | ⟨x, xs⟩
    · exact absurd rfl hne
    · exact h x (by simp)
  simp only [pump_dump_window_score]
  rw [hhead, getLastI_const h hne, list_max_const h hne, div_self hp]
  norm_num

lemma velocity_score_const {l : List (ℝ × ℤ)} {p : ℝ} (_hp : p ≠ 0)
    (h : ∀ x ∈ l, x.1 = p) : calculate_velocity_score l p = 0 := by
  by_cases h5 : l.length < 5
  · simp [calculate_velocity_score, h5]
  · simp only [calculate_velocity_score, if_neg h5]
    have hrec : ∀ x ∈ (l.reverse.take 5).map Prod.fst, x = p := by
      intro x hx
      obtain ⟨q, hq, rfl⟩ := List.mem_map.mp hx
      exact h q (List.mem_reverse.mp (List.take_subset _ _ hq))
    have hzero : ((((l.reverse.take 5).map Prod.fst).zip
        ((l.reverse.take 5).map Prod.fst).tail).map fun ab => |ab.1 - ab.2| / ab.2).sum = 0 := by
      refine List.sum_eq_zero fun x hx => ?_
      obtain ⟨⟨a, b⟩, hab, rfl⟩ := List.mem_map.mp hx
      obtain ⟨ha, hb⟩ := List.of_mem_zip hab
      rw [hrec a ha, hrec b (List.tail_subset _ hb)]
      simp
    rw [hzero, zero_div, zero_mul]
    exact min_eq_left zero_le_one

lemma volatility_score_const {l : List (ℝ × ℤ)} {p : ℝ} (h : ∀ x ∈ l, x.1 = p) :
    calculate_volatility_score l = 0 := by
  by_cases h10 : l.length < 10
  · simp [calculate_volatility_score, h10]
  · simp only [calculate_volatility_score, if_neg h10]
    have hv : list_variance (l.map Prod.fst) = 0 :=
      list_variance_const fun x hx => by
        obtain ⟨q, hq, rfl⟩ := List.mem_map.mp hx
        exact h q hq
    rw [hv, Real.sqrt_zero, zero_div, zero_mul]
    exact min_eq_left zero_le_one

lemma pump_dump_const {l : List (ℝ × ℤ)} {p : ℝ} (hp : p ≠ 0) (h : ∀ x ∈ l, x.1 = p) :
    detect_pump_dump_pattern l = 0 := by
  by_cases h20 : l.length < 20
  · simp [detect_pump_dump_pattern, h20]
  · simp only [detect_pump_dump_pattern, if_neg h20]
    have hz : ((list_windows 10 (l.map Prod.fst)).map pump_dump_window_score).sum = 0 := by
      refine List.sum_eq_zero fun s hs => ?_
      obtain ⟨w, hw, rfl⟩ := List.mem_map.mp hs
      rw [list_windows] at hw
      obtain ⟨i, hi, rfl⟩ := List.mem_map.mp hw
      have hi2 : i < (l.map Prod.fst).length + 1 - 10 := List.mem_range.mp hi
      refine pump_dump_window_score_const hp ?_ ?_
      · intro x hx
        have hxl : x ∈ l.map Prod.fst :=
          List.drop_subset _ _ (List.take_subset _ _ hx)
        obtain ⟨q, hq, rfl⟩ := List.mem_map.mp hxl
        exact h q hq
      · rw [← List.length_pos, List.length_take, List.length_drop]
        omega
    rw [hz]
    exact min_eq_left zero_le_one

lemma outlier_score_const {l : List (ℝ × ℤ)} {p : ℝ} (cur : ℝ) (h : ∀ x ∈ l, x.1 = p)
    (h10 : ¬(l.length < 10)) : calculate_outlier_score l cur = 1 := by
  simp only [calculate_outlier_score, if_neg h10]
  have hv : list_variance (l.map Prod.fst) = 0 :=
    list_variance_const fun x hx => by
      obtain ⟨q, hq, rfl⟩ := List.mem_map.mp hx
      exact h q hq
  rw [hv, Real.sqrt_zero, if_pos rfl]

/-- On any history with at least 10 entries all carrying one identical
price, the manipulation score is exactly the outlier contribution 0.2. -/
lemma const_history_score {H : List (ℝ × ℤ)} {p : ℝ} (hp : 0 < p)
    (hmem : ∀ x ∈ H, x.1 = p) (h10 : ¬(H.length < 10)) :
    calculate_outlier_score H p = 1 ∧ calculate_manipulation_score H p = 0.2 := by
  have hout := outlier_score_const p hmem h10
  refine ⟨hout, ?_⟩
  rw [calculate_manipulation_score, if_neg h10, velocity_score_const (ne_of_gt hp) hmem,
    volatility_score_const hmem, pump_dump_const (ne_of_gt hp) hmem, hout]
  norm_num

/-! ### Claim C10 -/

/-- Claim C10: on a perfectly constant positive price series of at least 10
entries (all inside the 300 s retention window), the outlier z-score is 0/0;
under Rust f64 semantics (`f64::min` ignoring the NaN operand) the capped
outlier sub-score evaluates to 1.0, and since velocity, volatility and
pump-dump sub-scores are all 0 on a constant series, `analyze_price` returns
exactly 0.2. -/
theorem constant_series_scores (hist : List (ℝ × ℤ)) (p : ℝ) (ts : ℤ)
    (hp : 0 < p) (hlen : 9 ≤ hist.length)
    (hconst : ∀ x ∈ hist, x.1 = p ∧ ts - 300 ≤ x.2) :
    calculate_outlier_score (analyze_price hist p ts).1 p = 1 ∧
    (analyze_price hist p ts).2 = 0.2 := by
  have happ : ∀ x ∈ hist ++ [(p, ts)], x.1 = p ∧ ts - 300 ≤ x.2 := by
    intro x hx
    rcases List.mem_append.mp hx with hx | hx
    · exact hconst x hx
    · simp only [List.mem_singleton] at hx
      subst hx
      exact ⟨rfl, by omega⟩
  have hfil : (hist ++ [(p, ts)]).filter (fun pt => decide (ts - 300 ≤ pt.2)) =
      hist ++ [(p, ts)] :=
    List.filter_eq_self.mpr fun a ha => by
      simp only [decide_eq_true_eq]
      exact (happ a ha).2
  simp only [analyze_price, hfil]
  have hlenL : (hist ++ [(p, ts)]).length = hist.length + 1 := by simp
  by_cases hb : 1000 < (hist ++ [(p, ts)]).length
  · rw [if_pos hb]
    refine const_history_score hp ?_ ?_
    · intro x hx
      exact (happ x (List.drop_subset _ _ hx)).1
    · rw [List.length_drop]
      omega
  · rw [if_neg hb]
    refine const_history_score hp ?_ ?_
    · intro x hx
      exact (happ x hx).1
    · omega

/-- Witness for C10 at the concrete constant series of nine entries (100, 1000)
plus the analysed price 100. -/
theorem constant_series_scores_witness :
    calculate_outlier_score
      (analyze_price (List.replicate 9 ((100 : ℝ), (1000 : ℤ))) 100 1000).1 100 = 1 ∧
    (analyze_price (List.replicate 9 ((100 : ℝ), (1000 : ℤ))) 100 1000).2 = 0.2 :=
  constant_series_scores _ 100 1000 (by norm_num) (by simp)
    (by
      intro x hx
      rw [List.eq_of_mem_replicate hx]
      norm_num)

/-! ### Claim C8 -/

lemma velocity_score_bounds {l : List (ℝ × ℤ)} (hpos : ∀ x ∈ l, 0 < x.1) (cur : ℝ) :
    0 ≤ calculate_velocity_score l cur ∧ calculate_velocity_score l cur ≤ 1 := by
  by_cases h5 : l.length < 5
  · simp [calculate_velocity_score, h5]
  · simp only [calculate_velocity_score, if_neg h5]
    have hsum : 0 ≤ ((((l.reverse.take 5).map Prod.fst).zip
        ((l.reverse.take 5).map Prod.fst).tail).map fun ab => |ab.1 - ab.2| / ab.2).sum := by
      refine List.sum_nonneg fun x hx => ?_
      obtain ⟨⟨a, b⟩, hab, rfl⟩ := List.mem_map.mp hx
      obtain ⟨_, hb⟩ := List.of_mem_zip hab
      obtain ⟨q, hq, rfl⟩ := List.mem_map.mp (List.tail_subset _ hb)
      have hq1 : 0 < q.1 := hpos q (List.mem_reverse.mp (List.take_subset _ _ hq))
      exact div_nonneg (abs_nonneg _) hq1.le
    exact ⟨le_min (mul_nonneg (div_nonneg hsum (Nat.cast_nonneg _)) (by norm_num)) zero_le_one,
      min_le_right _ _⟩

lemma volatility_score_bounds {l : List (ℝ × ℤ)} (hpos : ∀ x ∈ l, 0 < x.1) :
    0 ≤ calculate_volatility_score l ∧ calculate_volatility_score l ≤ 1 := by
  by_cases h10 : l.length < 10
  · simp [calculate_volatility_score, h10]
  · simp only [calculate_volatility_score, if_neg h10]
    have hmean : 0 ≤ list_mean (l.map Prod.fst) := by
      rw [list_mean]
      refine div_nonneg (List.sum_nonneg fun x hx => ?_) (Nat.cast_nonneg _)
      obtain ⟨q, hq, rfl⟩ := List.mem_map.mp hx
      exact (hpos q hq).le
    exact ⟨le_min (mul_nonneg (div_nonneg (Real.sqrt_nonneg _) hmean) (by norm_num)) zero_le_one,
      min_le_right _ _⟩

lemma pump_dump_score_bounds (l : List (ℝ × ℤ)) :
    0 ≤ detect_pump_dump_pattern l ∧ detect_pump_dump_pattern l ≤ 1 := by
  by_cases h20 : l.length < 20
  · simp [detect_pump_dump_pattern, h20]
  · simp only [detect_pump_dump_pattern, if_neg h20]
    refine ⟨le_min (List.sum_nonneg fun x hx => ?_) zero_le_one, min_le_right _ _⟩
    obtain ⟨w, _, rfl⟩ := List.mem_map.mp hx
    simp only [pump_dump_window_score]
    split <;> norm_num

lemma outlier_score_bounds (l : List (ℝ × ℤ)) (cur : ℝ) :
    0 ≤ calculate_outlier_score l cur ∧ calculate_outlier_score l cur ≤ 1 := by
  simp only [calculate_outlier_score]
  split
  · norm_num
  · split
    · norm_num
    · exact ⟨le_min (div_nonneg (div_nonneg (abs_nonneg _) (Real.sqrt_nonneg _)) (by norm_num))
        zero_le_one, min_le_right _ _⟩

lemma manipulation_bounds_of_pos {H : List (ℝ × ℤ)} (hmem : ∀ x ∈ H, 0 < x.1) (cur : ℝ) :
    0 ≤ calculate_manipulation_score H cur ∧ calculate_manipulation_score H cur ≤ 1 := by
  rw [calculate_manipulation_score]
  split
  · norm_num
  · obtain ⟨v0, v1⟩ := velocity_score_bounds hmem cur
    obtain ⟨s0, s1⟩ := volatility_score_bounds hmem
    obtain ⟨q0, q1⟩ := pump_dump_score_bounds H
    obtain ⟨o0, o1⟩ := outlier_score_bounds H cur
    constructor <;> nlinarith

/-- Claim C8 (amended): provided the analysed price and every price already
in the detector state are positive, the manipulation score returned by
`analyze_price` lies in the closed interval [0, 1].  Positivity is necessary:
with negative prices the velocity and volatility sub-scores are negative and
the total leaves the interval (see the counterexample). -/
theorem manipulation_score_in_unit_interval (hist : List (ℝ × ℤ)) (price : ℝ) (ts : ℤ)
    (hpos : ∀ x ∈ hist, 0 < x.1) (hp : 0 < price) :
    0 ≤ (analyze_price hist price ts).2 ∧ (analyze_price hist price ts).2 ≤ 1 := by
  have hmemA : ∀ x ∈ (hist ++ [(price, ts)]).filter (fun pt => decide (ts - 300 ≤ pt.2)),
      0 < x.1 := by
    intro x hx
    have hx2 : x ∈ hist ++ [(price, ts)] := List.mem_of_mem_filter hx
    rcases List.mem_append.mp hx2 with h | h
    · exact hpos x h
    · simp only [List.mem_singleton] at h
      subst h
      exact hp
  simp only [analyze_price]
  split
  · exact manipulation_bounds_of_pos
      (fun x hx => hmemA x (List.drop_subset _ _ hx)) price
  · exact manipulation_bounds_of_pos hmemA price

/-- Witness for the amended C8 at a concrete positive constant history. -/
theorem manipulation_score_in_unit_interval_witness :
    0 ≤ (analyze_price (List.replicate 9 ((100 : ℝ), (0 : ℤ))) 100 0).2 ∧
    (analyze_price (List.replicate 9 ((100 : ℝ), (0 : ℤ))) 100 0).2 ≤ 1 :=
  manipulation_score_in_unit_interval _ 100 0
    (by
      intro x hx
      rw [List.eq_of_mem_replicate hx]
      norm_num)
    (by norm_num)

/-- Counterexample to C8 as stated: analysing price −3 on nine prior entries
of alternating −1/−3 yields a ten-entry history with mean −2 and standard
deviation 1 on which velocity and volatility sub-scores are negative and the
total manipulation score is below 0, outside [0, 1]. -/
theorem manipulation_score_negative_counterexample :
    (analyze_price negativeHistory (-3) 0).2 < 0 := by
  have hstep : (analyze_price negativeHistory (-3) 0).2 =
      calculate_manipulation_score negativeTen (-3) := by
    simp [analyze_price, negativeHistory, negativeTen, List.filter_cons]
  rw [hstep]
  have hmap : negativeTen.map Prod.fst =
      [(-1 : ℝ), -3, -1, -3, -1, -3, -1, -3, -1, -3] := by
    simp [negativeTen]
  have hm : list_mean [(-1 : ℝ), -3, -1, -3, -1, -3, -1, -3, -1, -3] = -2 := by
    norm_num [list_mean]
  have hvar : list_variance [(-1 : ℝ), -3, -1, -3, -1, -3, -1, -3, -1, -3] = 1 := by
    norm_num [list_variance, hm]
  have hlen10 : ¬(negativeTen.length < 10) := by norm_num [negativeTen]
  have hvel : calculate_velocity_score negativeTen (-3) = -(400 / 3) := by
    have h5 : ¬(negativeTen.length < 5) := by norm_num [negativeTen]
    simp only [calculate_velocity_score, if_neg h5]
    norm_num [negativeTen, abs_of_nonpos, abs_of_nonneg, min_def]
  have hvol : calculate_volatility_score negativeTen = -5 := by
    simp only [calculate_volatility_score, if_neg hlen10, hmap, hvar, hm, Real.sqrt_one]
    norm_num [min_def]
  have hpat : detect_pump_dump_pattern negativeTen = 0 := by
    have h20 : negativeTen.length < 20 := by norm_num [negativeTen]
    simp [detect_pump_dump_pattern, h20]
  have hout : calculate_outlier_score negativeTen (-3) = 1 / 3 := by
    simp only [calculate_outlier_score, if_neg hlen10, hmap, hvar, hm, Real.sqrt_one]
    rw [if_neg (by norm_num)]
    norm_num [abs_of_nonpos, min_def]
  rw [calculate_manipulation_score, if_neg hlen10, hvel, hvol, hpat, hout]
  norm_num

/-! ### The spiked-history scenario shared by the C2, C3 and C5 evidence -/

lemma spiked19_eq_lit : spikedNineteen =
    [((100 : ℝ), (1000 : ℤ)), (100, 1000), (100, 1000), (500, 1000), (100, 1000), (100, 1000),
     (100, 1000), (100, 1000), (100, 1000), (100, 1000), (100, 1000), (100, 1000),
     (500, 1000), (100, 1000), (100, 1000), (100, 1000), (100, 1000), (10, 1000),
     (100, 1000)] := by
  simp [spikedNineteen, spikedHistory]

lemma spiked20_eq_lit : spikedTwenty =
    [((100 : ℝ), (1000 : ℤ)), (100, 1000), (100, 1000), (500, 1000), (100, 1000), (100, 1000),
     (100, 1000), (100, 1000), (100, 1000), (100, 1000), (100, 1000), (100, 1000),
     (500, 1000), (100, 1000), (100, 1000), (100, 1000), (100, 1000), (10, 1000),
     (100, 1000), (100, 1000)] := by
  simp [spikedTwenty, spikedNineteen, spikedHistory]

lemma spiked19_len : spikedNineteen.length = 19 := by
  rw [spiked19_eq_lit]
  rfl

lemma spiked20_len : spikedTwenty.length = 20 := by
  rw [spiked20_eq_lit]
  rfl

lemma spiked19_map : spikedNineteen.map Prod.fst =
    [(100 : ℝ), 100, 100, 500, 100, 100, 100, 100, 100, 100, 100, 100, 500, 100, 100, 100,
     100, 10, 100] := by
  rw [spiked19_eq_lit]
  rfl

lemma spiked20_map : spikedTwenty.map Prod.fst =
    [(100 : ℝ), 100, 100, 500, 100, 100, 100, 100, 100, 100, 100, 100, 500, 100, 100, 100,
     100, 10, 100, 100] := by
  rw [spiked20_eq_lit]
  rfl

lemma lit19_mean : list_mean
    [(100 : ℝ), 100, 100, 500, 100, 100, 100, 100, 100, 100, 100, 100, 500, 100, 100, 100,
     100, 10, 100] = 2610 / 19 := by
  norm_num [list_mean]

lemma lit19_var : list_variance
    [(100 : ℝ), 100, 100, 500, 100, 100, 100, 100, 100, 100, 100, 100, 500, 100, 100, 100,
     100, 10, 100] = 5729800 / 361 := by
  norm_num [list_variance, lit19_mean]

lemma lit20_mean : list_mean
    [(100 : ℝ), 100, 100, 500, 100, 100, 100, 100, 100, 100, 100, 100, 500, 100, 100, 100,
     100, 10, 100, 100] = 271 / 2 := by
  norm_num [list_mean]

lemma lit20_var : list_variance
    [(100 : ℝ), 100, 100, 500, 100, 100, 100, 100, 100, 100, 100, 100, 500, 100, 100, 100,
     100, 10, 100, 100] = 60579 / 4 := by
  norm_num [list_variance, lit20_mean]

lemma spiked19_pos : ∀ x ∈ spikedNineteen, 0 < x.1 := by
  intro x hx
  rw [spiked19_eq_lit] at hx
  fin_cases hx <;> norm_num

lemma spiked19_pat : detect_pump_dump_pattern spikedNineteen = 0 := by
  have h : spikedNineteen.length < 20 := by rw [spiked19_len]; norm_num
  simp [detect_pump_dump_pattern, h]

lemma spiked19_out : calculate_outlier_score spikedNineteen 100 ≤ 3 / 4 := by
  have h10 : ¬(spikedNineteen.length < 10) := by rw [spiked19_len]; norm_num
  simp only [calculate_outlier_score, if_neg h10, spiked19_map, lit19_var, lit19_mean]
  rw [if_neg (by rw [Real.sqrt_eq_zero']; norm_num)]
  refine le_trans (min_le_left _ _) ?_
  have habs : |(100 : ℝ) - 2610 / 19| = 710 / 19 := by
    rw [abs_of_nonpos (by norm_num)]
    norm_num
  rw [habs, div_div, div_le_iff₀ (by positivity)]
  have hs : (2840 / 171 : ℝ) ≤ Real.sqrt (5729800 / 361) :=
    Real.le_sqrt_of_sq_le (by norm_num)
  nlinarith [hs]

lemma spiked20_velocity : calculate_velocity_score spikedTwenty 100 = 1 := by
  have h5 : ¬(spikedTwenty.length < 5) := by rw [spiked20_len]; norm_num
  simp only [calculate_velocity_score, if_neg h5, spiked20_eq_lit]
  norm_num [abs_of_nonpos, abs_of_nonneg, min_def]

lemma spiked20_volatility : calculate_volatility_score spikedTwenty = 1 := by
  have h10 : ¬(spikedTwenty.length < 10) := by rw [spiked20_len]; norm_num
  simp only [calculate_volatility_score, if_neg h10, spiked20_map, lit20_var, lit20_mean]
  refine min_eq_right ?_
  have hs : (271 / 20 : ℝ) ≤ Real.sqrt (60579 / 4) :=
    Real.le_sqrt_of_sq_le (by norm_num)
  rw [div_mul_eq_mul_div, le_div_iff₀ (by norm_num)]
  nlinarith [hs]

lemma spiked20_pat : detect_pump_dump_pattern spikedTwenty = 1 := by
  have h20 : ¬(spikedTwenty.length < 20) := by rw [spiked20_len]; norm_num
  simp only [detect_pump_dump_pattern, if_neg h20, spiked20_map]
  norm_num [list_windows, List.range_succ, pump_dump_window_score, list_max,
    List.getLastI, max_def, min_def]

lemma spiked19_score_le : calculate_manipulation_score spikedNineteen 100 ≤ 0.7 := by
  have h10 : ¬(spikedNineteen.length < 10) := by rw [spiked19_len]; norm_num
  rw [calculate_manipulation_score, if_neg h10, spiked19_pat]
  have h1 := (velocity_score_bounds spiked19_pos 100).2
  have h2 := (volatility_score_bounds spiked19_pos).2
  have h3 := spiked19_out
  nlinarith [h1, h2, h3]

lemma spiked20_score_gt : 0.7 < calculate_manipulation_score spikedTwenty 100 := by
  have h10 : ¬(spikedTwenty.length < 10) := by rw [spiked20_len]; norm_num
  rw [calculate_manipulation_score, if_neg h10, spiked20_velocity, spiked20_volatility,
    spiked20_pat]
  have hout := (outlier_score_bounds spikedTwenty 100).1
  nlinarith [hout]

lemma spiked_analyze19 : analyze_price spikedHistory 100 1000 =
    (spikedNineteen, calculate_manipulation_score spikedNineteen 100) := by
  have hfil : (spikedHistory ++ [((100 : ℝ), (1000 : ℤ))]).filter
      (fun pt => decide ((1000 : ℤ) - 300 ≤ pt.2)) = spikedHistory ++ [((100 : ℝ), (1000 : ℤ))] := by
    refine List.filter_eq_self.mpr fun a ha => ?_
    simp only [decide_eq_true_eq]
    have h2 : a.2 = 1000 := by
      rcases List.mem_append.mp ha with h | h
      · simp only [spikedHistory] at h
        fin_cases h <;> rfl
      · simp only [List.mem_singleton] at h
        rw [h]
    omega
  have hlen : ¬(1000 < (spikedHistory ++ [((100 : ℝ), (1000 : ℤ))]).length) := by
    have : (spikedHistory ++ [((100 : ℝ), (1000 : ℤ))]).length = 19 := by
      rw [show spikedHistory ++ [((100 : ℝ), (1000 : ℤ))] = spikedNineteen from rfl, spiked19_len]
    omega
  simp only [analyze_price, hfil, if_neg hlen]
  rfl

lemma spiked_analyze20 : analyze_price spikedNineteen 100 1000 =
    (spikedTwenty, calculate_manipulation_score spikedTwenty 100) := by
  have hfil : (spikedNineteen ++ [((100 : ℝ), (1000 : ℤ))]).filter
      (fun pt => decide ((1000 : ℤ) - 300 ≤ pt.2)) = spikedNineteen ++ [((100 : ℝ), (1000 : ℤ))] := by
    refine List.filter_eq_self.mpr fun a ha => ?_
    simp only [decide_eq_true_eq]
    have h2 : a.2 = 1000 := by
      rcases List.mem_append.mp ha with h | h
      · rw [spiked19_eq_lit] at h
        fin_cases h <;> rfl
      · simp only [List.mem_singleton] at h
        rw [h]
    omega
  have hlen : ¬(1000 < (spikedNineteen ++ [((100 : ℝ), (1000 : ℤ))]).length) := by
    have : (spikedNineteen ++ [((100 : ℝ), (1000 : ℤ))]).length = 20 := by
      rw [show spikedNineteen ++ [((100 : ℝ), (1000 : ℤ))] = spikedTwenty from rfl, spiked20_len]
    omega
  simp only [analyze_price, hfil, if_neg hlen]
  rfl

/-- Projection form of `spiked_analyze19` used when rewriting inside the
tick, where the analysed price and timestamp appear as field projections of
the cached aggregate. -/
lemma spiked_analyze19_proj :
    analyze_price spikedHistory simplePrice.mark_price simplePrice.timestamp =
      (spikedNineteen, calculate_manipulation_score spikedNineteen 100) :=
  spiked_analyze19

/-- Projection form of `spiked_analyze20`. -/
lemma spiked_analyze20_proj :
    analyze_price spikedNineteen simplePrice.mark_price simplePrice.timestamp =
      (spikedTwenty, calculate_manipulation_score spikedTwenty 100) :=
  spiked_analyze20

/-- The single-source validator accepts the cached aggregate: one source with
price 100 in range and confidence ratio 1% below the 5% bound. -/
lemma validate_simplePrice : validate_price_sources simplePrice = .ok () := by
  rw [validate_price_sources]
  rw [if_neg (by simp [simplePrice]), if_pos (by simp [simplePrice])]
  rw [if_neg (by simp [simplePrice, simpleQuote]; norm_num)]
  rw [if_neg (by simp [simplePrice, simpleQuote]; norm_num)]

lemma fresh_1000100 : validate_price_freshness simplePrice ((1000100 : ℤ) / 1000) = .ok () := by
  rw [validate_price_freshness, if_neg]
  simp only [simplePrice]
  norm_num

lemma fresh_1000400 : validate_price_freshness simplePrice ((1000400 : ℤ) / 1000) = .ok () := by
  rw [validate_price_freshness, if_neg]
  simp only [simplePrice]
  norm_num

lemma cache_hit_1000100 :
    get_aggregated_price (some (simplePrice, 1000000)) 1000100 [] "BTC/USD" =
      ⟨.ok simplePrice, some (simplePrice, 1000000), []⟩ := by
  simp only [get_aggregated_price]
  rw [if_pos (by norm_num)]

lemma cache_hit_1000400 :
    get_aggregated_price (some (simplePrice, 1000000)) 1000400 [] "BTC/USD" =
      ⟨.ok simplePrice, some (simplePrice, 1000000), []⟩ := by
  simp only [get_aggregated_price]
  rw [if_pos (by norm_num)]

/-- First cache-hit tick on the spiked history: 19 entries scored, no blend,
the cached aggregate is returned verbatim and the detector advanced to
`spikedNineteen`. -/
lemma spiked_tick1 :
    (get_price_with_validation (some (simplePrice, 1000000)) spikedHistory 1000100 []
      (some 50) "BTC/USD").result = .ok simplePrice ∧
    (get_price_with_validation (some (simplePrice, 1000000)) spikedHistory 1000100 []
      (some 50) "BTC/USD").detector = spikedNineteen := by
  constructor <;>
    simp only [get_price_with_validation, cache_hit_1000100, spiked_analyze19_proj,
      validate_simplePrice, fresh_1000100, if_neg (not_lt.mpr spiked19_score_le)]

/-- Second cache-hit tick, now on 20 history entries: the score crosses 0.7
and the published price is the blend 0.8·100 + 0.2·50 = 90 with confidence
1.5. -/
lemma spiked_tick2 :
    (get_price_with_validation (some (simplePrice, 1000000)) spikedNineteen 1000400 []
      (some 50) "BTC/USD").result =
      .ok ⟨"BTC/USD", 90, 90, 1.5, [simpleQuote], 1000⟩ := by
  simp only [get_price_with_validation, cache_hit_1000400, spiked_analyze20_proj,
    validate_simplePrice, fresh_1000400, if_pos spiked20_score_gt,
    apply_conservative_pricing, get_historical_average]
  norm_num [simplePrice, AggregatedPrice.mk.injEq]

/-- Second cache-hit tick with an empty history store: the blend is attempted
and the missing historical average propagates as an error. -/
lemma spiked_tick2_no_history :
    (get_price_with_validation (some (simplePrice, 1000000)) spikedNineteen 1000400 []
      none "BTC/USD").result = .error .historyUnavailable := by
  simp only [get_price_with_validation, cache_hit_1000400, spiked_analyze20_proj,
    validate_simplePrice, fresh_1000400, if_pos spiked20_score_gt,
    apply_conservative_pricing, get_historical_average]

/-! ### Claim C3, counterexample -/

/-- Counterexample to C3 as stated: two validated-price calls 300 ms apart on
the same valid cache entry (so both are served byte-equal aggregates by the
cache) return DIFFERENT AggregatedPrice values, because the manipulation
detector state advances between the calls: the first call (19 history
entries, score ≤ 0.7) publishes mark 100 unblended; the second call (20
entries, score > 0.7) publishes the blended mark 90. -/
theorem cache_ttl_byte_equality_counterexample :
    (1000400 : ℤ) - 1000100 < 500 ∧
    (get_price_with_validation (some (simplePrice, 1000000)) spikedHistory 1000100 []
        (some 50) "BTC/USD").result = .ok simplePrice ∧
    (get_price_with_validation (some (simplePrice, 1000000)) spikedHistory 1000100 []
        (some 50) "BTC/USD").detector = spikedNineteen ∧
    (get_price_with_validation (some (simplePrice, 1000000)) spikedNineteen 1000400 []
        (some 50) "BTC/USD").result =
      .ok ⟨"BTC/USD", 90, 90, 1.5, [simpleQuote], 1000⟩ ∧
    (⟨"BTC/USD", 90, 90, 1.5, [simpleQuote], 1000⟩ : AggregatedPrice).mark_price ≠
      simplePrice.mark_price := by
  refine ⟨by norm_num, spiked_tick1.1, spiked_tick1.2, spiked_tick2, ?_⟩
  simp only [simplePrice]
  norm_num

/-! ### Claim C2 -/

/-- Claim C2 (amended): whenever a tick's aggregation and validators succeed,
the manipulation score exceeds 0.7 and the history store has no rows in the
window (a NULL average), `get_price_with_validation` returns the
`historyUnavailable` error — it does NOT fall back to the original unblended
price. -/
theorem missing_history_propagates_error (cache : Option (AggregatedPrice × ℤ))
    (detector : List (ℝ × ℤ)) (nowMs : ℤ) (fetched : List PriceData) (symbol : String)
    (p : AggregatedPrice)
    (hagg : (get_aggregated_price cache nowMs fetched symbol).result = .ok p)
    (hsv : validate_price_sources p = .ok ())
    (hsf : validate_price_freshness p (nowMs / 1000) = .ok ())
    (hsc : 0.7 < (analyze_price detector p.mark_price p.timestamp).2) :
    (get_price_with_validation cache detector nowMs fetched none symbol).result =
      .error .historyUnavailable := by
  simp only [get_price_with_validation, hagg, hsv, hsf, if_pos hsc,
    apply_conservative_pricing, get_historical_average]

/-- Witness for the amended C2 at the concrete spiked scenario. -/
theorem missing_history_propagates_error_witness :
    (get_price_with_validation (some (simplePrice, 1000000)) spikedNineteen 1000400 []
        none "BTC/USD").result = .error .historyUnavailable :=
  missing_history_propagates_error (some (simplePrice, 1000000)) spikedNineteen 1000400 []
    "BTC/USD" simplePrice (by rw [cache_hit_1000400]) validate_simplePrice fresh_1000400
    (by rw [spiked_analyze20_proj]; exact spiked20_score_gt)

/-- Counterexample to C2 as stated: at the concrete spiked scenario the score
exceeds 0.7 and the history store is empty, yet the tick returns an error
rather than the original unblended AggregatedPrice. -/
theorem missing_history_counterexample :
    0.7 < (analyze_price spikedNineteen simplePrice.mark_price simplePrice.timestamp).2 ∧
    (get_price_with_validation (some (simplePrice, 1000000)) spikedNineteen 1000400 []
        none "BTC/USD").result = .error .historyUnavailable := by
  constructor
  · rw [spiked_analyze20_proj]
    exact spiked20_score_gt
  · exact spiked_tick2_no_history

/-- Witness for C5 at the concrete spiked scenario: the blend branch of the
theorem applies with historical mean 50 and yields mark 0.8·100 + 0.2·50. -/
theorem conservative_blend_formula_witness :
    (get_price_with_validation (some (simplePrice, 1000000)) spikedNineteen 1000400 []
        (some 50) "BTC/USD").result =
      .ok ⟨simplePrice.symbol, 0.8 * simplePrice.mark_price + 0.2 * 50,
           0.8 * simplePrice.index_price + 0.2 * 50, simplePrice.confidence * 1.5,
           simplePrice.sources, simplePrice.timestamp⟩ :=
  (conservative_blend_formula (some (simplePrice, 1000000)) spikedNineteen 1000400 []
      (some 50) "BTC/USD" simplePrice 50 (by rw [cache_hit_1000400]) validate_simplePrice
      fresh_1000400).1
    (by rw [spiked_analyze20_proj]; exact spiked20_score_gt) rfl

/-! ### Claim C6 -/

/-- Claim C6 (amended): in exact arithmetic the reconciler's mark for a
single fresh quote with positive price and non-negative confidence equals
the quote's price exactly — the confidence weight cancels in
`(price · w) / w`.  As IEEE-754 doubles the same cancellation is subject to
double rounding and can be one unit in the last place off; see the
counterexample. -/
theorem single_source_mark_exact (symbol : String) (nowS : ℤ) (q : PriceData)
    (hp : 0 < q.price) (hc : 0 ≤ q.confidence) (hfresh : nowS - q.timestamp ≤ 30) :
    ∃ a, calculate_aggregated_price symbol [q] nowS = .ok a ∧ a.mark_price = q.price := by
  have hfil : [q].filter (fun p => decide (nowS - p.timestamp ≤ 30)) = [q] := by
    refine List.filter_eq_self.mpr fun a ha => ?_
    simp only [List.mem_singleton] at ha
    subst ha
    simpa using hfresh
  have hw : (1 : ℝ) / (1 + q.confidence) ≠ 0 := by positivity
  refine ⟨⟨symbol,
    ([q].map fun p => p.price * (1 / (1 + p.confidence))).sum /
      ([q].map fun p => 1 / (1 + p.confidence)).sum,
    ([q].map fun p => p.price * (1 / (1 + p.confidence))).sum /
      ([q].map fun p => 1 / (1 + p.confidence)).sum,
    ([q].map fun p => p.confidence).sum / ([q].length : ℝ),
    [q], nowS⟩, ?_, ?_⟩
  · unfold calculate_aggregated_price
    rw [hfil]
    norm_num
  · show ([q].map fun p => p.price * (1 / (1 + p.confidence))).sum /
      ([q].map fun p => 1 / (1 + p.confidence)).sum = q.price
    simp only [List.map_cons, List.map_nil, List.sum_cons, List.sum_nil, add_zero]
    exact mul_div_cancel_right₀ q.price hw

/-- Witness for the amended C6 at the concrete single quote (100, confidence
1, ratio 1%). -/
theorem single_source_mark_exact_witness :
    ∃ a, calculate_aggregated_price "BTC/USD" [simpleQuote] 1000 = .ok a ∧
      a.mark_price = simpleQuote.price :=
  single_source_mark_exact "BTC/USD" 1000 simpleQuote (by norm_num [simpleQuote])
    (by norm_num [simpleQuote]) (by norm_num [simpleQuote])

set_option maxRecDepth 80000 in
/-- Counterexample to C6 as stated: for the valid single quote with price
1662 and confidence 68 (positive price, confidence ratio 68/1662 ≈ 4.09%,
below the 5% bound), the binary64 evaluation of the weighted mark — modelled
bit-exactly by `single_quote_mark_f64` — yields 7309553301454847 · 2⁻⁴²
= 1661.9999999999998, which is NOT exactly equal to the quote's price 1662:
the double rounding in `(price ⊗ w) ⊘ w` with `w = fl(1/fl(1+68))` loses one
unit in the last place. -/
theorem single_source_mark_f64_counterexample :
    (0 : ℚ) < 1662 ∧ (68 : ℚ) / 1662 ≤ 0.05 ∧
    single_quote_mark_f64 1662 68 = (7309553301454847, 4398046511104) ∧
    (single_quote_mark_f64 1662 68).1 ≠ 1662 * (single_quote_mark_f64 1662 68).2 := by
  refine ⟨by norm_num, by norm_num, by decide, by decide⟩
